import Mathlib

/-!
Verification development for the Secret-Santa service in `src/main.py`.

The Python service keeps two SQL tables (`groups`, `participants`) and exposes
CRUD endpoints plus a `toss` endpoint that assigns every participant of a group
a recipient by rejection-sampling a fixed-point-free permutation.  This file
embeds the database state and every endpoint as executable Lean definitions and
proves the behavioural claims about them.

Modelling conventions:
* A database is a pair of row lists mirroring the two tables.  `group_id` on a
  participant row is `Option String` because the column is nullable.
* `str(uuid.uuid4())` is modelled by passing the generated identifier as an
  explicit argument; theorems that need freshness assume it.
* `random.sample(ids, len(ids))` yields a permutation of `ids`; the randomness
  source is modelled as a stream `Nat → List String` of candidate orderings,
  and theorems that rely on the library contract assume each candidate is a
  permutation of the group's identifier list.
* The unbounded `while True` loop of `toss` is observed through a trial budget
  `fuel`: `TossResult.looping` means none of the first `fuel` candidates was
  accepted, i.e. the real loop is still running after `fuel` iterations.
* SQLAlchemy/PostgreSQL semantics that the Python code relies on implicitly:
  deleting a group with the default relationship cascade detaches its
  participant rows (their `group_id` is set to NULL; the rows are not deleted),
  and deleting a participant row that is still referenced through the
  `recipient_id` foreign key fails with an integrity error because no
  `ON DELETE` action is configured.
-/

/-- Row of the `groups` table (`GroupDB` in src/main.py). -/
structure GroupDB where
  id : String
  name : String
  description : Option String
deriving DecidableEq

/-- Row of the `participants` table (`ParticipantDB` in src/main.py).
`groupId` is an `Option` because the `group_id` column is nullable. -/
structure ParticipantDB where
  id : String
  name : String
  wish : Option String
  groupId : Option String
  recipientId : Option String
deriving DecidableEq

/-- The whole database state. -/
structure Database where
  groups : List GroupDB
  participants : List ParticipantDB
deriving DecidableEq

/-- Serialized recipient shape (`ParticipantLite` in src/main.py). -/
structure ParticipantLite where
  id : String
  name : String
  wish : Option String
deriving DecidableEq

/-- Serialized participant shape (`Participant` response model in src/main.py). -/
structure SerializedParticipant where
  id : String
  name : String
  wish : Option String
  recipient : Option ParticipantLite
deriving DecidableEq

/-- Serialized group shape (`Group` response model in src/main.py). -/
structure GroupOut where
  id : String
  name : String
  description : Option String
  participants : List SerializedParticipant
deriving DecidableEq

/-- Error outcomes of the endpoints: HTTP 404, HTTP 409, and a database
constraint violation that the code does not catch (surfaces as HTTP 500). -/
inductive ApiError where
  | notFound
  | conflict
  | integrityError
deriving DecidableEq

/-- `db.query(GroupDB).filter(GroupDB.id == group_id).first()`. -/
def findGroup (db : Database) (gid : String) : Option GroupDB :=
  db.groups.find? fun g => g.id = gid

/-- The participant rows of one group, in table order
(the `group.participants` relationship). -/
def groupParticipants (db : Database) (gid : String) : List ParticipantDB :=
  db.participants.filter fun p => p.groupId = some gid

/-- Primary-key lookup used when resolving the `recipient` relationship. -/
def findParticipantById (db : Database) (pid : String) : Option ParticipantDB :=
  db.participants.find? fun p => p.id = pid

/-- `db.query(ParticipantDB).filter(id == participant_id, group_id == group_id).first()`. -/
def findParticipantIn (db : Database) (gid pid : String) : Option ParticipantDB :=
  db.participants.find? fun p => p.id = pid ∧ p.groupId = some gid

/-- `participant.recipient` resolved to its serialized lite form. -/
def resolveRecipient (db : Database) (p : ParticipantDB) : Option ParticipantLite :=
  match p.recipientId with
  | none => none
  | some rid =>
    match findParticipantById db rid with
    | none => none
    | some r => some { id := r.id, name := r.name, wish := r.wish }

/-- `serialize_participant` (src/main.py lines 82-92). -/
def serialize_participant (db : Database) (p : ParticipantDB) : SerializedParticipant :=
  { id := p.id, name := p.name, wish := p.wish, recipient := resolveRecipient db p }

/-- `create_group` (src/main.py lines 94-100); the generated uuid is passed in
as `newId`. -/
def create_group (db : Database) (newId nm : String) (description : Option String) :
    Database × String :=
  ({ db with groups := db.groups ++ [{ id := newId, name := nm, description := description }] },
   newId)

/-- `get_group` (src/main.py lines 112-127). -/
def get_group (db : Database) (gid : String) : Except ApiError GroupOut :=
  match findGroup db gid with
  | none => Except.error ApiError.notFound
  | some g =>
    Except.ok
      { id := g.id, name := g.name, description := g.description,
        participants := (groupParticipants db gid).map (serialize_participant db) }

/-- `update_group` (src/main.py lines 129-138): overwrites the found group's
name and description with the request body. -/
def update_group (db : Database) (gid nm : String) (description : Option String) :
    Except ApiError Database :=
  match findGroup db gid with
  | none => Except.error ApiError.notFound
  | some _ =>
    Except.ok
      { db with
        groups := db.groups.map fun g =>
          if g.id = gid then { g with name := nm, description := description } else g }

/-- `delete_group` (src/main.py lines 140-147).  `db.delete(group)` runs with
the default SQLAlchemy relationship cascade: since no delete cascade is
configured on `GroupDB.participants`, the ORM de-associates the child rows by
setting their nullable `group_id` column to NULL and deletes only the group
row itself. -/
def delete_group (db : Database) (gid : String) : Except ApiError Database :=
  match findGroup db gid with
  | none => Except.error ApiError.notFound
  | some _ =>
    Except.ok
      { groups := db.groups.filter fun g => ¬ g.id = gid,
        participants := db.participants.map fun p =>
          if p.groupId = some gid then { p with groupId := none } else p }

/-- `add_participant` (src/main.py lines 149-163); the generated uuid is passed
in as `newId`.  The new row starts with no recipient. -/
def add_participant (db : Database) (gid newId nm : String) (wish : Option String) :
    Except ApiError (Database × String) :=
  match findGroup db gid with
  | none => Except.error ApiError.notFound
  | some _ =>
    Except.ok
      ({ db with
         participants := db.participants ++
           [{ id := newId, name := nm, wish := wish, groupId := some gid,
              recipientId := none }] },
       newId)

/-- `delete_participant` (src/main.py lines 165-176).  The emitted `DELETE` is
subject to the `recipient_id` foreign-key constraint (no `ON DELETE` action),
so PostgreSQL rejects it while another surviving row still references the
participant; the code does not handle that, so it surfaces as an integrity
error. -/
def delete_participant (db : Database) (gid pid : String) : Except ApiError Database :=
  match findParticipantIn db gid pid with
  | none => Except.error ApiError.notFound
  | some _ =>
    if db.participants.any (fun q => ¬ q.id = pid ∧ q.recipientId = some pid) then
      Except.error ApiError.integrityError
    else
      Except.ok { db with participants := db.participants.filter fun p => ¬ p.id = pid }

/-- The acceptance test of the sampling loop:
`all(a != b for a, b in zip(participant_ids, shuffled_ids))` (line 197). -/
def isDerangementOf (ids cand : List String) : Bool :=
  (ids.zip cand).all fun ab => ¬ ab.1 = ab.2

/-- The `while True` rejection-sampling loop (src/main.py lines 195-198),
observed for `fuel` iterations starting at trial index `k`: the result is the
first accepted candidate among trials `k, k+1, …, k+fuel-1`, and `none` means
the loop is still running after `fuel` iterations (the code has no trial
budget and no fallback generator). -/
def rejectionLoop (ids : List String) (stream : Nat → List String) :
    Nat → Nat → Option (List String)
  | _, 0 => none
  | k, fuel + 1 =>
    if isDerangementOf ids (stream k) then some (stream k)
    else rejectionLoop ids stream (k + 1) fuel

/-- The update loop `for participant, recipient_id in zip(participants,
shuffled_ids)` (src/main.py lines 200-202): walks the participant table and
hands the next shuffled identifier to each row of the tossed group, in order.
Like Python's `zip`, it stops assigning when the shuffled list is exhausted. -/
def updateRecipients : List ParticipantDB → String → List String → List ParticipantDB
  | [], _, _ => []
  | p :: ps, gid, shuffled =>
    if p.groupId = some gid then
      match shuffled with
      | [] => p :: updateRecipients ps gid []
      | rid :: rest => { p with recipientId := some rid } :: updateRecipients ps gid rest
    else
      p :: updateRecipients ps gid shuffled

/-- Specification helper for reasoning about `updateRecipients`: positionally
assign the shuffled identifiers to a list of rows (the rows of one group),
leaving rows unchanged once the identifiers run out. -/
def zipSet : List ParticipantDB → List String → List ParticipantDB
  | [], _ => []
  | ps, [] => ps
  | p :: ps, rid :: rest => { p with recipientId := some rid } :: zipSet ps rest

/-- The state after the recipient-update loop of `toss` commits. -/
def tossApply (db : Database) (gid : String) (sh : List String) : Database :=
  { db with participants := updateRecipients db.participants gid sh }

/-- The response body of a successful `toss` (src/main.py line 207). -/
def tossOutput (db : Database) (gid : String) : List SerializedParticipant :=
  (groupParticipants db gid).map (serialize_participant db)

/-- Outcome of `toss` observed under a trial budget `fuel`.  `looping` means
the rejection-sampling loop accepted none of the first `fuel` candidates and
is still running. -/
inductive TossResult where
  | notFound
  | conflict
  | looping
  | ok (db : Database) (out : List SerializedParticipant)
deriving DecidableEq

/-- `toss` (src/main.py lines 178-207). -/
def toss (db : Database) (gid : String) (stream : Nat → List String) (fuel : Nat) :
    TossResult :=
  match findGroup db gid with
  | none => TossResult.notFound
  | some _ =>
    if (groupParticipants db gid).length < 3 then TossResult.conflict
    else
      match rejectionLoop ((groupParticipants db gid).map fun p => p.id) stream 0 fuel with
      | none => TossResult.looping
      | some sh => TossResult.ok (tossApply db gid sh) (tossOutput (tossApply db gid sh) gid)

/-- `get_recipient` (src/main.py lines 209-222). -/
def get_recipient (db : Database) (gid pid : String) : Except ApiError ParticipantLite :=
  match findParticipantIn db gid pid with
  | none => Except.error ApiError.notFound
  | some p =>
    match resolveRecipient db p with
    | none => Except.error ApiError.notFound
    | some r => Except.ok r

/-- Spec invariants I1 and I2 for one participant row: its recipient link, if
set, is not itself and resolves to a row of the same group. -/
def recipientOk (ps : List ParticipantDB) (p : ParticipantDB) : Prop :=
  ∀ rid, p.recipientId = some rid →
    ¬ rid = p.id ∧ ∃ q ∈ ps, q.id = rid ∧ q.groupId = p.groupId

instance recipientOkDec (ps : List ParticipantDB) (p : ParticipantDB) :
    Decidable (recipientOk ps p) :=
  match hrec : p.recipientId with
  | none =>
    isTrue (by intro rid h; rw [hrec] at h; cases h)
  | some r =>
    decidable_of_iff (¬ r = p.id ∧ ∃ q ∈ ps, q.id = r ∧ q.groupId = p.groupId)
      (by
        constructor
        · intro hx rid h
          rw [hrec] at h
          cases h
          exact hx
        · intro hall
          exact hall r hrec)

/-- Global state invariant: primary keys are unique in both tables and every
recipient link satisfies I1 and I2. -/
def StateInv (db : Database) : Prop :=
  (db.groups.map fun g => g.id).Nodup ∧
  (db.participants.map fun p => p.id).Nodup ∧
  ∀ p ∈ db.participants, recipientOk db.participants p

instance stateInvDec (db : Database) : Decidable (StateInv db) := by
  unfold StateInv
  infer_instance

/-- A concrete group of three participants with no assignment yet. -/
def db3 : Database :=
  { groups := [{ id := "g1", name := "G", description := none }],
    participants :=
      [ { id := "p1", name := "A", wish := none, groupId := some "g1", recipientId := none },
        { id := "p2", name := "B", wish := none, groupId := some "g1", recipientId := none },
        { id := "p3", name := "C", wish := none, groupId := some "g1", recipientId := none } ] }

/-- `db3` after a toss whose accepted candidate was the rotation
`["p2", "p3", "p1"]`. -/
def db3after : Database :=
  { groups := [{ id := "g1", name := "G", description := none }],
    participants :=
      [ { id := "p1", name := "A", wish := none, groupId := some "g1", recipientId := some "p2" },
        { id := "p2", name := "B", wish := none, groupId := some "g1", recipientId := some "p3" },
        { id := "p3", name := "C", wish := none, groupId := some "g1", recipientId := some "p1" } ] }

/-- Response body of that toss. -/
def out3 : List SerializedParticipant :=
  [ { id := "p1", name := "A", wish := none,
      recipient := some { id := "p2", name := "B", wish := none } },
    { id := "p2", name := "B", wish := none,
      recipient := some { id := "p3", name := "C", wish := none } },
    { id := "p3", name := "C", wish := none,
      recipient := some { id := "p1", name := "A", wish := none } } ]

/-- `db3after` after its group is deleted: the group row is gone and the
participant rows are detached (group link cleared), not removed. -/
def db3detached : Database :=
  { groups := [],
    participants :=
      [ { id := "p1", name := "A", wish := none, groupId := none, recipientId := some "p2" },
        { id := "p2", name := "B", wish := none, groupId := none, recipientId := some "p3" },
        { id := "p3", name := "C", wish := none, groupId := none, recipientId := some "p1" } ] }

/-- `db3` after participant `p2` is deleted (legal there: nobody references
`p2` while no toss has happened). -/
def db3minus : Database :=
  { groups := [{ id := "g1", name := "G", description := none }],
    participants :=
      [ { id := "p1", name := "A", wish := none, groupId := some "g1", recipientId := none },
        { id := "p3", name := "C", wish := none, groupId := some "g1", recipientId := none } ] }

/-- A randomness stream that always proposes the rotation by one. -/
def streamRot : Nat → List String := fun _ => ["p2", "p3", "p1"]

/-- A randomness stream that always proposes the input order itself. -/
def streamSame : Nat → List String := fun _ => ["p1", "p2", "p3"]

/-! ### Generic helpers about `List.Forall₂` -/

theorem forall2_map_eq {α β γ : Type} {R : α → β → Prop} {f : α → γ} {g : β → γ}
    (hfg : ∀ a b, R a b → g b = f a) :
    ∀ {l : List α} {l' : List β}, List.Forall₂ R l l' → l'.map g = l.map f := by
  intro l l' h
  induction h with
  | nil => rfl
  | cons hab _ ih => simp [ih, hfg _ _ hab]

theorem forall2_mem_right {α β : Type} {R : α → β → Prop} :
    ∀ {l : List α} {l' : List β}, List.Forall₂ R l l' → ∀ y ∈ l', ∃ x ∈ l, R x y := by
  intro l l' h
  induction h with
  | nil => intro y hy; cases hy
  | cons hab _ ih =>
    intro y hy
    rcases List.mem_cons.mp hy with hy | hy
    · subst hy
      exact ⟨_, List.mem_cons_self _ _, hab⟩
    · obtain ⟨x, hx, hR⟩ := ih y hy
      exact ⟨x, List.mem_cons_of_mem _ hx, hR⟩

theorem forall2_mem_left {α β : Type} {R : α → β → Prop} :
    ∀ {l : List α} {l' : List β}, List.Forall₂ R l l' → ∀ x ∈ l, ∃ y ∈ l', R x y := by
  intro l l' h
  induction h with
  | nil => intro x hx; cases hx
  | cons hab _ ih =>
    intro x hx
    rcases List.mem_cons.mp hx with hx | hx
    · subst hx
      exact ⟨_, List.mem_cons_self _ _, hab⟩
    · obtain ⟨y, hy, hR⟩ := ih x hx
      exact ⟨y, List.mem_cons_of_mem _ hy, hR⟩

theorem forall2_map_right {α : Type} {R : α → α → Prop} {f : α → α} :
    ∀ {l : List α}, (∀ a ∈ l, R a (f a)) → List.Forall₂ R l (l.map f) := by
  intro l
  induction l with
  | nil => intro _; exact List.Forall₂.nil
  | cons a l ih =>
    intro h
    exact List.Forall₂.cons (h a (List.mem_cons_self _ _))
      (ih fun x hx => h x (List.mem_cons_of_mem _ hx))

/-! ### The rejection-sampling loop -/

theorem rejectionLoop_some {ids : List String} {stream : Nat → List String} :
    ∀ {fuel k sh}, rejectionLoop ids stream k fuel = some sh →
      ∃ j, k ≤ j ∧ j < k + fuel ∧ sh = stream j ∧ isDerangementOf ids (stream j) = true := by
  intro fuel
  induction fuel with
  | zero => intro k sh h; simp [rejectionLoop] at h
  | succ n ih =>
    intro k sh h
    rw [rejectionLoop] at h
    split at h
    · next hacc =>
      cases h
      exact ⟨k, Nat.le_refl k, by omega, rfl, hacc⟩
    · obtain ⟨j, hj1, hj2, hj3, hj4⟩ := ih h
      exact ⟨j, by omega, by omega, hj3, hj4⟩

theorem rejectionLoop_isSome {ids : List String} {stream : Nat → List String} {j : Nat}
    (hj : isDerangementOf ids (stream j) = true) :
    ∀ fuel k, k ≤ j → j < k + fuel → (rejectionLoop ids stream k fuel).isSome := by
  intro fuel
  induction fuel with
  | zero => intro k h1 h2; omega
  | succ n ih =>
    intro k h1 h2
    rw [rejectionLoop]
    split
    · rfl
    · next hrej =>
      have hkj : ¬ k = j := by
        intro hk
        rw [hk] at hrej
        exact hrej hj
      exact ih (k + 1) (by omega) (by omega)

theorem rejectionLoop_none {ids : List String} {stream : Nat → List String}
    (hbad : ∀ k, isDerangementOf ids (stream k) = false) :
    ∀ fuel k, rejectionLoop ids stream k fuel = none := by
  intro fuel
  induction fuel with
  | zero => intro k; rfl
  | succ n ih =>
    intro k
    rw [rejectionLoop, hbad k]
    simp [ih]

/-! ### The recipient-update loop -/

theorem zipSet_map_id : ∀ (ps : List ParticipantDB) (sh : List String),
    (zipSet ps sh).map (fun p => p.id) = ps.map fun p => p.id := by
  intro ps
  induction ps with
  | nil => intro sh; cases sh <;> rfl
  | cons p ps ih =>
    intro sh
    cases sh with
    | nil => rfl
    | cons r rest => simp [zipSet, ih]

theorem zipSet_map_recipient : ∀ (ps : List ParticipantDB) (sh : List String),
    ps.length = sh.length →
    (zipSet ps sh).map (fun p => p.recipientId) = sh.map some := by
  intro ps
  induction ps with
  | nil =>
    intro sh h
    cases sh with
    | nil => rfl
    | cons r rest => simp at h
  | cons p ps ih =>
    intro sh h
    cases sh with
    | nil => simp at h
    | cons r rest =>
      simp only [zipSet, List.map_cons]
      exact congrArg (List.cons (some r)) (ih rest (by simpa using h))

theorem zipSet_filterMap_recipient : ∀ (ps : List ParticipantDB) (sh : List String),
    ps.length = sh.length →
    (zipSet ps sh).filterMap (fun p => p.recipientId) = sh := by
  intro ps
  induction ps with
  | nil =>
    intro sh h
    cases sh with
    | nil => rfl
    | cons r rest => simp at h
  | cons p ps ih =>
    intro sh h
    cases sh with
    | nil => simp at h
    | cons r rest =>
      simp only [zipSet, List.filterMap_cons]
      exact congrArg (List.cons r) (ih rest (by simpa using h))

theorem zipSet_no_fixpoint : ∀ (ps : List ParticipantDB) (sh : List String),
    ps.length = sh.length →
    isDerangementOf (ps.map fun p => p.id) sh = true →
    ∀ q ∈ zipSet ps sh, ∀ rid, q.recipientId = some rid → ¬ rid = q.id := by
  intro ps
  induction ps with
  | nil =>
    intro sh _ _ q hq
    cases sh with
    | nil => cases hq
    | cons r rest => cases hq
  | cons p ps ih =>
    intro sh hlen hder q hq
    cases sh with
    | nil => simp at hlen
    | cons r rest =>
      simp only [isDerangementOf, List.map_cons, List.zip_cons_cons, List.all_cons,
        Bool.and_eq_true, decide_eq_true_eq] at hder
      rcases List.mem_cons.mp hq with hq | hq
      · subst hq
        intro rid hrid hcontra
        cases hrid
        exact hder.1 (by simpa using hcontra.symm)
      · exact ih rest (by simpa using hlen)
          (by simpa [isDerangementOf] using hder.2) q hq

theorem updateRecipients_filter_group (gid : String) :
    ∀ (l : List ParticipantDB) (sh : List String),
      (updateRecipients l gid sh).filter (fun p => p.groupId = some gid) =
        zipSet (l.filter fun p => p.groupId = some gid) sh := by
  intro l
  induction l with
  | nil => intro sh; cases sh <;> rfl
  | cons p ps ih =>
    intro sh
    by_cases hp : p.groupId = some gid
    · cases sh with
      | nil =>
        have hz : ∀ qs : List ParticipantDB, zipSet qs [] = qs := by
          intro qs; cases qs <;> rfl
        simp [updateRecipients, if_pos hp, List.filter_cons, hp, ih, hz]
      | cons r rest =>
        have hq : ({ p with recipientId := some r } : ParticipantDB).groupId = some gid := hp
        simp [updateRecipients, if_pos hp, List.filter_cons, hp, hq, zipSet, ih]
    · simp [updateRecipients, if_neg hp, List.filter_cons, hp, ih]

theorem updateRecipients_forall2 (gid : String) :
    ∀ (l : List ParticipantDB) (sh : List String),
      (l.filter fun p => p.groupId = some gid).length ≤ sh.length →
      List.Forall₂ (fun p q =>
          q.id = p.id ∧ q.name = p.name ∧ q.wish = p.wish ∧ q.groupId = p.groupId ∧
          ((¬ p.groupId = some gid) → q = p) ∧
          (p.groupId = some gid → ∃ r, q.recipientId = some r))
        l (updateRecipients l gid sh) := by
  intro l
  induction l with
  | nil => intro sh _; exact List.Forall₂.nil
  | cons p ps ih =>
    intro sh hlen
    by_cases hp : p.groupId = some gid
    · cases sh with
      | nil =>
        exfalso
        simp [List.filter_cons, hp] at hlen
      | cons r rest =>
        simp only [updateRecipients, if_pos hp]
        refine List.Forall₂.cons ⟨rfl, rfl, rfl, rfl, fun hc => absurd hp hc, fun _ => ⟨r, rfl⟩⟩ ?_
        apply ih
        simp [List.filter_cons, hp] at hlen
        omega
    · simp only [updateRecipients, if_neg hp]
      refine List.Forall₂.cons ⟨rfl, rfl, rfl, rfl, fun _ => rfl, fun hc => absurd hc hp⟩ ?_
      apply ih
      simpa [List.filter_cons, hp] using hlen

/-! ### Unfolding `toss` -/

theorem toss_ok_inv {db : Database} {gid : String} {stream : Nat → List String} {fuel : Nat}
    {db' : Database} {out : List SerializedParticipant}
    (h : toss db gid stream fuel = TossResult.ok db' out) :
    ∃ sh, (findGroup db gid).isSome ∧ ¬ (groupParticipants db gid).length < 3 ∧
      rejectionLoop ((groupParticipants db gid).map fun p => p.id) stream 0 fuel = some sh ∧
      db' = tossApply db gid sh ∧ out = tossOutput (tossApply db gid sh) gid := by
  unfold toss at h
  split at h
  · cases h
  · next g hg =>
    split at h
    · cases h
    · next hlen =>
      split at h
      · cases h
      · next sh hloop =>
        cases h
        exact ⟨sh, by rw [hg]; rfl, hlen, hloop, rfl, rfl⟩

theorem toss_eq_ok {db : Database} {gid : String} {stream : Nat → List String} {fuel : Nat}
    {g : GroupDB} {sh : List String}
    (hg : findGroup db gid = some g)
    (hlen : ¬ (groupParticipants db gid).length < 3)
    (hloop : rejectionLoop ((groupParticipants db gid).map fun p => p.id) stream 0 fuel
      = some sh) :
    toss db gid stream fuel =
      TossResult.ok (tossApply db gid sh) (tossOutput (tossApply db gid sh) gid) := by
  simp [toss, hg, hlen, hloop]

theorem toss_eq_looping {db : Database} {gid : String} {stream : Nat → List String} {fuel : Nat}
    (hg : (findGroup db gid).isSome)
    (hlen : ¬ (groupParticipants db gid).length < 3)
    (hloop : rejectionLoop ((groupParticipants db gid).map fun p => p.id) stream 0 fuel
      = none) :
    toss db gid stream fuel = TossResult.looping := by
  obtain ⟨g, hg⟩ := Option.isSome_iff_exists.mp hg
  simp [toss, hg, hlen, hloop]

/-- C2: `toss` answers `NotFound` exactly when the group id is unknown and
`Conflict` exactly when the group exists with fewer than 3 participants.  Both
characterisations hold for every randomness stream and every trial budget, so
the checks run before any randomness is consumed; since the error outcomes
carry no successor state, nothing is mutated on these paths (the Python code
raises before any row is written). -/
theorem C2_toss_errors (db : Database) (gid : String) (stream : Nat → List String)
    (fuel : Nat) :
    (toss db gid stream fuel = TossResult.notFound ↔ findGroup db gid = none) ∧
    (toss db gid stream fuel = TossResult.conflict ↔
      (∃ g, findGroup db gid = some g) ∧ (groupParticipants db gid).length < 3) := by
  cases hg : findGroup db gid with
  | none =>
    have ht : toss db gid stream fuel = TossResult.notFound := by simp [toss, hg]
    rw [ht]
    constructor
    · exact ⟨fun _ => rfl, fun _ => rfl⟩
    · constructor
      · intro h
        cases h
      · rintro ⟨⟨g, hgg⟩, -⟩
        cases hgg
  | some g =>
    by_cases hlen : (groupParticipants db gid).length < 3
    · have ht : toss db gid stream fuel = TossResult.conflict := by
        simp [toss, hg, hlen]
      rw [ht]
      constructor
      · constructor
        · intro h
          cases h
        · intro hnone
          cases hnone
      · constructor
        · intro _
          exact ⟨⟨g, rfl⟩, hlen⟩
        · intro _
          rfl
    · cases hloop : rejectionLoop ((groupParticipants db gid).map fun p => p.id)
          stream 0 fuel with
      | none =>
        have ht : toss db gid stream fuel = TossResult.looping := by
          simp [toss, hg, hlen, hloop]
        rw [ht]
        constructor
        · constructor
          · intro h
            cases h
          · intro hnone
            cases hnone
        · constructor
          · intro h
            cases h
          · intro hh
            exact absurd hh.2 hlen
      | some sh =>
        have ht : toss db gid stream fuel =
            TossResult.ok (tossApply db gid sh) (tossOutput (tossApply db gid sh) gid) := by
          simp [toss, hg, hlen, hloop]
        rw [ht]
        constructor
        · constructor
          · intro h
            cases h
          · intro hnone
            cases hnone
        · constructor
          · intro h
            cases h
          · intro hh
            exact absurd hh.2 hlen

/-- C1: the mapping installed by a successful toss is a derangement of the
group's identifiers: the group's key set is unchanged, the assigned recipient
identifiers are exactly a permutation of that set (each identifier occurs
exactly once as a value, with no duplicates), and no participant is assigned
itself. -/
theorem C1_toss_derangement (db : Database) (gid : String) (stream : Nat → List String)
    (fuel : Nat) (db' : Database) (out : List SerializedParticipant)
    (hNodup : ((groupParticipants db gid).map fun p => p.id).Nodup)
    (hstream : ∀ k, (stream k).Perm ((groupParticipants db gid).map fun p => p.id))
    (h : toss db gid stream fuel = TossResult.ok db' out) :
    ((groupParticipants db' gid).map fun p => p.id) =
      ((groupParticipants db gid).map fun p => p.id) ∧
    ((groupParticipants db' gid).filterMap fun p => p.recipientId).Perm
      ((groupParticipants db gid).map fun p => p.id) ∧
    ((groupParticipants db' gid).filterMap fun p => p.recipientId).Nodup ∧
    ∀ p ∈ groupParticipants db' gid, ∀ rid, p.recipientId = some rid → ¬ rid = p.id := by
  obtain ⟨sh, hg, hlen3, hloop, hdb', hout⟩ := toss_ok_inv h
  subst hdb'
  obtain ⟨j, -, -, hsh, hder⟩ := rejectionLoop_some hloop
  subst hsh
  have hperm := hstream j
  have hlen_eq : (groupParticipants db gid).length = (stream j).length := by
    rw [hperm.length_eq, List.length_map]
  have hgp : groupParticipants (tossApply db gid (stream j)) gid
      = zipSet (groupParticipants db gid) (stream j) := by
    exact updateRecipients_filter_group gid db.participants (stream j)
  refine ⟨?_, ?_, ?_, ?_⟩
  · rw [hgp]
    exact zipSet_map_id _ _
  · rw [hgp, zipSet_filterMap_recipient _ _ hlen_eq]
    exact hperm
  · rw [hgp, zipSet_filterMap_recipient _ _ hlen_eq]
    exact hperm.nodup_iff.mpr hNodup
  · rw [hgp]
    exact zipSet_no_fixpoint _ _ hlen_eq hder

theorem C1_witness :
    ((groupParticipants db3after "g1").map fun p => p.id) =
      ((groupParticipants db3 "g1").map fun p => p.id) ∧
    ((groupParticipants db3after "g1").filterMap fun p => p.recipientId).Perm
      ((groupParticipants db3 "g1").map fun p => p.id) ∧
    ((groupParticipants db3after "g1").filterMap fun p => p.recipientId).Nodup ∧
    ∀ p ∈ groupParticipants db3after "g1", ∀ rid, p.recipientId = some rid → ¬ rid = p.id :=
  C1_toss_derangement db3 "g1" streamRot 1 db3after out3 (by decide)
    (fun _ => by simp only [streamRot]; decide) (by rfl)

/-- C7 (frame property of `toss`): a successful toss keeps the group
table untouched and rewrites the participant table pointwise: every row keeps
its id, name, wish and group link; rows outside the tossed group are exactly
unchanged; and the recipient references of the tossed group's rows, in table
order, are exactly the accepted candidate of the rejection loop — a
fixed-point-free permutation proposed by the randomness source — applied
positionally, so every previous or empty assignment is overwritten by the
corresponding mapped identifier. -/
theorem C7_toss_frame (db : Database) (gid : String) (stream : Nat → List String)
    (fuel : Nat) (db' : Database) (out : List SerializedParticipant)
    (hstream : ∀ k, (stream k).Perm ((groupParticipants db gid).map fun p => p.id))
    (h : toss db gid stream fuel = TossResult.ok db' out) :
    db'.groups = db.groups ∧
    (∃ sh, (∃ j, sh = stream j) ∧
      isDerangementOf ((groupParticipants db gid).map fun p => p.id) sh = true ∧
      sh.Perm ((groupParticipants db gid).map fun p => p.id) ∧
      ((groupParticipants db' gid).map fun p => p.recipientId) = sh.map some) ∧
    List.Forall₂ (fun p q =>
        q.id = p.id ∧ q.name = p.name ∧ q.wish = p.wish ∧ q.groupId = p.groupId ∧
        ((¬ p.groupId = some gid) → q = p) ∧
        (p.groupId = some gid → ∃ r, q.recipientId = some r))
      db.participants db'.participants := by
  obtain ⟨sh, hg, hlen3, hloop, hdb', hout⟩ := toss_ok_inv h
  subst hdb'
  obtain ⟨j, -, -, hsh, hder⟩ := rejectionLoop_some hloop
  subst hsh
  have hperm := hstream j
  have hlen_eq : (groupParticipants db gid).length = (stream j).length := by
    rw [hperm.length_eq, List.length_map]
  have hgp : groupParticipants (tossApply db gid (stream j)) gid
      = zipSet (groupParticipants db gid) (stream j) :=
    updateRecipients_filter_group gid db.participants (stream j)
  refine ⟨rfl, ⟨stream j, ⟨j, rfl⟩, hder, hperm, ?_⟩,
    updateRecipients_forall2 gid db.participants (stream j) (le_of_eq hlen_eq)⟩
  rw [hgp]
  exact zipSet_map_recipient _ _ hlen_eq

theorem C7_witness :
    db3after.groups = db3.groups ∧
    (∃ sh, (∃ j, sh = streamRot j) ∧
      isDerangementOf ((groupParticipants db3 "g1").map fun p => p.id) sh = true ∧
      sh.Perm ((groupParticipants db3 "g1").map fun p => p.id) ∧
      ((groupParticipants db3after "g1").map fun p => p.recipientId) = sh.map some) ∧
    List.Forall₂ (fun p q =>
        q.id = p.id ∧ q.name = p.name ∧ q.wish = p.wish ∧ q.groupId = p.groupId ∧
        ((¬ p.groupId = some "g1") → q = p) ∧
        (p.groupId = some "g1" → ∃ r, q.recipientId = some r))
      db3.participants db3after.participants :=
  C7_toss_frame db3 "g1" streamRot 1 db3after out3
    (fun _ => by simp only [streamRot]; decide) (by rfl)

/-- C3 counterexample: the claim asserts that the rejection-sampling loop is
bounded by a trial budget with a constructive-derangement fallback, so that
`toss` terminates under every randomness source.  The code's loop is
`while True` with no budget and no fallback: there is a randomness source —
one producing only valid permutations, namely the input order itself every
time — under which `toss` on a 3-participant group is still looping after
every finite number of iterations. -/
theorem C3_counterexample :
    ∃ stream : Nat → List String,
      (∀ k, (stream k).Perm ((groupParticipants db3 "g1").map fun p => p.id)) ∧
      ∀ fuel, toss db3 "g1" stream fuel = TossResult.looping := by
  refine ⟨streamSame, ?_, ?_⟩
  · intro k
    simp only [streamSame]
    decide
  · intro fuel
    apply toss_eq_looping
    · decide
    · decide
    · apply rejectionLoop_none
      intro k
      simp only [streamSame]
      decide

/-- C3 amended: the rejection-sampling loop of `toss` has no trial ceiling and
no fallback generator.  For a tossable group, `toss` succeeds within an
observation budget exactly when some trial inside the budget proposes a
fixed-point-free ordering, and when every trial inside the budget fails the
check the loop is still running. -/
theorem C3_amended_loop_unbounded (db : Database) (gid : String)
    (stream : Nat → List String) (fuel : Nat) (g : GroupDB)
    (hg : findGroup db gid = some g)
    (hlen : ¬ (groupParticipants db gid).length < 3) :
    ((∃ db' out, toss db gid stream fuel = TossResult.ok db' out) ↔
      (∃ j, j < fuel ∧
        isDerangementOf ((groupParticipants db gid).map fun p => p.id) (stream j) = true)) ∧
    ((∀ j, j < fuel →
        isDerangementOf ((groupParticipants db gid).map fun p => p.id) (stream j) = false) →
      toss db gid stream fuel = TossResult.looping) := by
  constructor
  · constructor
    · rintro ⟨db', out, h⟩
      obtain ⟨sh, -, -, hloop, -, -⟩ := toss_ok_inv h
      obtain ⟨j, -, hj2, -, hder⟩ := rejectionLoop_some hloop
      exact ⟨j, by omega, hder⟩
    · rintro ⟨j, hj, hder⟩
      have hsome := rejectionLoop_isSome hder fuel 0 (Nat.zero_le j) (by omega)
      obtain ⟨sh, hloop⟩ := Option.isSome_iff_exists.mp hsome
      exact ⟨_, _, toss_eq_ok hg hlen hloop⟩
  · intro hbad
    cases hloop : rejectionLoop ((groupParticipants db gid).map fun p => p.id)
        stream 0 fuel with
    | none =>
      apply toss_eq_looping _ hlen hloop
      rw [hg]
      rfl
    | some sh =>
      exfalso
      obtain ⟨j, -, hj2, -, hder⟩ := rejectionLoop_some hloop
      rw [hbad j (by omega)] at hder
      cases hder

theorem C3_witness :
    ∃ db' out, toss db3 "g1" streamRot 1 = TossResult.ok db' out :=
  (C3_amended_loop_unbounded db3 "g1" streamRot 1
      { id := "g1", name := "G", description := none } (by rfl) (by decide)).1.mpr
    ⟨0, Nat.zero_lt_one, by decide⟩

/-! ### Invariant preservation -/

theorem map_map_congr {α β γ : Type} {f : α → β} {g : β → γ} {h : α → γ} :
    ∀ {l : List α}, (∀ a ∈ l, g (f a) = h a) → (l.map f).map g = l.map h := by
  intro l
  induction l with
  | nil => intro _; rfl
  | cons a l ih =>
    intro hc
    simp only [List.map_cons]
    rw [hc a (List.mem_cons_self _ _), ih fun x hx => hc x (List.mem_cons_of_mem _ hx)]

theorem recipientOk_mono {ps ps' : List ParticipantDB} {p : ParticipantDB}
    (h : recipientOk ps p)
    (hsub : ∀ q ∈ ps, ∃ q' ∈ ps', q'.id = q.id ∧ q'.groupId = q.groupId) :
    recipientOk ps' p := by
  intro rid hrid
  obtain ⟨hne, q, hq, hqid, hqg⟩ := h rid hrid
  obtain ⟨q', hq', hid', hg'⟩ := hsub q hq
  refine ⟨hne, q', hq', ?_, ?_⟩
  · rw [hid', hqid]
  · rw [hg', hqg]

theorem stateInv_create (db : Database) (hInv : StateInv db) (nid nm : String)
    (d : Option String) (hfresh : ¬ nid ∈ db.groups.map fun g => g.id) :
    StateInv (create_group db nid nm d).1 := by
  obtain ⟨hg, hp, hr⟩ := hInv
  refine ⟨?_, hp, hr⟩
  unfold create_group
  simp only [List.map_append, List.map_cons, List.map_nil]
  rw [List.nodup_append]
  refine ⟨hg, List.nodup_singleton _, ?_⟩
  intro a ha hb
  simp only [List.mem_singleton] at hb
  subst hb
  exact hfresh ha

theorem stateInv_update (db : Database) (hInv : StateInv db) (gid nm : String)
    (d : Option String) (db' : Database)
    (h : update_group db gid nm d = Except.ok db') : StateInv db' := by
  unfold update_group at h
  split at h
  · cases h
  · cases h
    obtain ⟨hg, hp, hr⟩ := hInv
    refine ⟨?_, hp, hr⟩
    have hids : (db.groups.map fun g =>
        if g.id = gid then { g with name := nm, description := d } else g).map (fun g => g.id)
        = db.groups.map fun g => g.id := by
      apply map_map_congr
      intro g _
      by_cases hc : g.id = gid
      · simp [hc]
      · simp [hc]
    rw [hids]
    exact hg

theorem stateInv_add (db : Database) (hInv : StateInv db) (gid nid nm : String)
    (w : Option String) (res : Database × String)
    (hfresh : ¬ nid ∈ db.participants.map fun p => p.id)
    (h : add_participant db gid nid nm w = Except.ok res) : StateInv res.1 := by
  unfold add_participant at h
  split at h
  · cases h
  · cases h
    obtain ⟨hg, hp, hr⟩ := hInv
    refine ⟨hg, ?_, ?_⟩
    · simp only [List.map_append, List.map_cons, List.map_nil]
      rw [List.nodup_append]
      refine ⟨hp, List.nodup_singleton _, ?_⟩
      intro a ha hb
      simp only [List.mem_singleton] at hb
      subst hb
      exact hfresh ha
    · intro p hp'
      rcases List.mem_append.mp hp' with hmem | hmem
      · apply recipientOk_mono (hr p hmem)
        intro q hq
        exact ⟨q, List.mem_append_left _ hq, rfl, rfl⟩
      · simp only [List.mem_singleton] at hmem
        subst hmem
        intro rid hrid
        cases hrid

theorem stateInv_delete_group (db : Database) (hInv : StateInv db) (gid : String)
    (db' : Database) (h : delete_group db gid = Except.ok db') : StateInv db' := by
  unfold delete_group at h
  split at h
  · cases h
  · cases h
    obtain ⟨hg, hp, hr⟩ := hInv
    refine ⟨?_, ?_, ?_⟩
    · exact List.Nodup.sublist ((List.filter_sublist _).map _) hg
    · have hids : (db.participants.map fun p =>
          if p.groupId = some gid then { p with groupId := none } else p).map (fun p => p.id)
          = db.participants.map fun p => p.id := by
        apply map_map_congr
        intro p _
        by_cases hc : p.groupId = some gid
        · simp [hc]
        · simp [hc]
      rw [hids]
      exact hp
    · intro p hp'
      obtain ⟨p0, hp0, hdet⟩ := List.mem_map.mp hp'
      subst hdet
      intro rid hrid
      have hrid0 : p0.recipientId = some rid := by
        by_cases hc : p0.groupId = some gid
        · simpa [hc] using hrid
        · simpa [hc] using hrid
      obtain ⟨hne, q, hq, hqid, hqg⟩ := hr p0 hp0 rid hrid0
      constructor
      · by_cases hc : p0.groupId = some gid
        · simpa [hc] using hne
        · simpa [hc] using hne
      · refine ⟨(if q.groupId = some gid then { q with groupId := none } else q),
          List.mem_map_of_mem _ hq, ?_, ?_⟩
        · by_cases hc : q.groupId = some gid
          · simp [hc, hqid]
          · simp [hc, hqid]
        · by_cases hc : p0.groupId = some gid
          · simp [hqg, hc]
          · simp [hqg, hc]

theorem stateInv_delete_participant (db : Database) (hInv : StateInv db) (gid pid : String)
    (db' : Database) (h : delete_participant db gid pid = Except.ok db') : StateInv db' := by
  unfold delete_participant at h
  split at h
  · cases h
  · split at h
    · cases h
    · next hnoref =>
      cases h
      obtain ⟨hg, hp, hr⟩ := hInv
      have hnoref' : ∀ q ∈ db.participants, ¬ q.id = pid → ¬ q.recipientId = some pid := by
        intro q hq hqid hqr
        apply hnoref
        rw [List.any_eq_true]
        exact ⟨q, hq, by simp [hqid, hqr]⟩
      refine ⟨hg, ?_, ?_⟩
      · exact List.Nodup.sublist ((List.filter_sublist _).map _) hp
      · intro p hp'
        have hmem := List.mem_of_mem_filter hp'
        have hpid : ¬ p.id = pid := by
          have := List.of_mem_filter hp'
          simpa using this
        intro rid hrid
        obtain ⟨hne, q, hq, hqid, hqg⟩ := hr p hmem rid hrid
        have hridpid : ¬ rid = pid := by
          intro hcontra
          subst hcontra
          exact hnoref' p hmem hpid hrid
        refine ⟨hne, q, ?_, hqid, hqg⟩
        apply List.mem_filter.mpr
        refine ⟨hq, ?_⟩
        simp only [decide_eq_true_eq]
        rw [hqid]
        exact hridpid

theorem stateInv_toss (db : Database) (hInv : StateInv db) (gid : String)
    (stream : Nat → List String) (fuel : Nat) (db' : Database)
    (out : List SerializedParticipant)
    (hstream : ∀ k, (stream k).Perm ((groupParticipants db gid).map fun p => p.id))
    (h : toss db gid stream fuel = TossResult.ok db' out) : StateInv db' := by
  obtain ⟨sh, hg, hlen3, hloop, hdb', -⟩ := toss_ok_inv h
  subst hdb'
  obtain ⟨j, -, -, hsh, hder⟩ := rejectionLoop_some hloop
  subst hsh
  have hperm := hstream j
  obtain ⟨hgn, hpn, hr⟩ := hInv
  have hlen_eq : (groupParticipants db gid).length = (stream j).length := by
    rw [hperm.length_eq, List.length_map]
  have hF := updateRecipients_forall2 gid db.participants (stream j) (le_of_eq hlen_eq)
  have hsub : ∀ x ∈ db.participants,
      ∃ y ∈ updateRecipients db.participants gid (stream j),
        y.id = x.id ∧ y.groupId = x.groupId := by
    intro x hx
    obtain ⟨y, hy, hRy⟩ := forall2_mem_left hF x hx
    exact ⟨y, hy, hRy.1, hRy.2.2.2.1⟩
  refine ⟨hgn, ?_, ?_⟩
  · have hmap : (updateRecipients db.participants gid (stream j)).map (fun p => p.id)
        = db.participants.map fun p => p.id :=
      forall2_map_eq (fun a b hab => hab.1) hF
    show ((updateRecipients db.participants gid (stream j)).map fun p => p.id).Nodup
    rw [hmap]
    exact hpn
  · intro q hq
    by_cases hqg : q.groupId = some gid
    · have hqf : q ∈ (updateRecipients db.participants gid (stream j)).filter
          (fun p => p.groupId = some gid) := by
        apply List.mem_filter.mpr
        exact ⟨hq, by simp [hqg]⟩
      rw [updateRecipients_filter_group] at hqf
      intro rid hrid
      constructor
      · exact zipSet_no_fixpoint (groupParticipants db gid) (stream j) hlen_eq hder
          q hqf rid hrid
      · have hrec : q.recipientId ∈ (zipSet (groupParticipants db gid) (stream j)).map
            (fun p => p.recipientId) := List.mem_map_of_mem _ hqf
        rw [zipSet_map_recipient _ _ hlen_eq, hrid] at hrec
        obtain ⟨r0, hr0, hr0eq⟩ := List.mem_map.mp hrec
        obtain rfl := Option.some.inj hr0eq
        have hin : r0 ∈ (groupParticipants db gid).map fun p => p.id := hperm.subset hr0
        rw [← zipSet_map_id (groupParticipants db gid) (stream j)] at hin
        obtain ⟨q2, hq2, hq2id⟩ := List.mem_map.mp hin
        have hq2' : q2 ∈ (updateRecipients db.participants gid (stream j)).filter
            (fun p => p.groupId = some gid) := by
          rw [updateRecipients_filter_group]
          exact hq2
        have hq2mem : q2 ∈ updateRecipients db.participants gid (stream j) :=
          List.mem_of_mem_filter hq2'
        have hq2g : q2.groupId = some gid := by
          have := List.of_mem_filter hq2'
          simpa using this
        refine ⟨q2, hq2mem, hq2id, ?_⟩
        rw [hq2g, hqg]
    · obtain ⟨p0, hp0, hR⟩ := forall2_mem_right hF q hq
      have hp0g : ¬ p0.groupId = some gid := by
        rw [← hR.2.2.2.1]
        exact hqg
      have hqp0 : q = p0 := hR.2.2.2.2.1 hp0g
      rw [hqp0]
      exact recipientOk_mono (hr p0 hp0) hsub

/-- C5: every state-changing operation preserves the data-model invariants:
unique primary keys in both tables, and every set recipient link is neither
the participant itself (I1) nor outside the participant's group (I2). -/
theorem C5_invariant_preservation (db : Database) (hInv : StateInv db) :
    (∀ nid nm d, ¬ nid ∈ (db.groups.map fun g => g.id) →
        StateInv (create_group db nid nm d).1) ∧
    (∀ gid nm d db', update_group db gid nm d = Except.ok db' → StateInv db') ∧
    (∀ gid db', delete_group db gid = Except.ok db' → StateInv db') ∧
    (∀ gid nid nm w res, ¬ nid ∈ (db.participants.map fun p => p.id) →
        add_participant db gid nid nm w = Except.ok res → StateInv res.1) ∧
    (∀ gid pid db', delete_participant db gid pid = Except.ok db' → StateInv db') ∧
    (∀ gid stream fuel db' out,
        (∀ k, (stream k).Perm ((groupParticipants db gid).map fun p => p.id)) →
        toss db gid stream fuel = TossResult.ok db' out → StateInv db') :=
  ⟨fun nid nm d hf => stateInv_create db hInv nid nm d hf,
   fun gid nm d db' h => stateInv_update db hInv gid nm d db' h,
   fun gid db' h => stateInv_delete_group db hInv gid db' h,
   fun gid nid nm w res hf h => stateInv_add db hInv gid nid nm w res hf h,
   fun gid pid db' h => stateInv_delete_participant db hInv gid pid db' h,
   fun gid stream fuel db' out hs h => stateInv_toss db hInv gid stream fuel db' out hs h⟩

theorem C5_witness : StateInv db3after :=
  (C5_invariant_preservation db3 (by decide)).2.2.2.2.2 "g1" streamRot 1 db3after out3
    (fun _ => by simp only [streamRot]; decide) (by rfl)

/-- C6: `get_recipient` succeeds exactly on a participant that exists in the
given group and already has a recipient set, returning the recipient's
id/name/wish; it answers `NotFound` exactly when the participant is missing in
that group or has no recipient yet — in particular always, for every group and
participant, while no recipient link is set (i.e. before any toss). -/
theorem C6_get_recipient (db : Database) (gid pid : String) (hInv : StateInv db) :
    (get_recipient db gid pid = Except.error ApiError.notFound ↔
      findParticipantIn db gid pid = none ∨
      ∃ p, findParticipantIn db gid pid = some p ∧ p.recipientId = none) ∧
    (∀ r, get_recipient db gid pid = Except.ok r →
      ∃ p q, findParticipantIn db gid pid = some p ∧ p.recipientId = some q.id ∧
        q ∈ db.participants ∧ r = { id := q.id, name := q.name, wish := q.wish }) ∧
    ((∀ p ∈ db.participants, p.recipientId = none) →
      get_recipient db gid pid = Except.error ApiError.notFound) := by
  cases hfind : findParticipantIn db gid pid with
  | none =>
    have hres : get_recipient db gid pid = Except.error ApiError.notFound := by
      simp [get_recipient, hfind]
    refine ⟨?_, ?_, fun _ => hres⟩
    · rw [hres]
      exact ⟨fun _ => Or.inl rfl, fun _ => rfl⟩
    · intro r hr
      rw [hres] at hr
      cases hr
  | some p =>
    have hp : p ∈ db.participants := List.mem_of_find?_eq_some hfind
    cases hrec : p.recipientId with
    | none =>
      have hres : get_recipient db gid pid = Except.error ApiError.notFound := by
        simp [get_recipient, hfind, resolveRecipient, hrec]
      refine ⟨?_, ?_, fun _ => hres⟩
      · rw [hres]
        exact ⟨fun _ => Or.inr ⟨p, rfl, hrec⟩, fun _ => rfl⟩
      · intro r hr
        rw [hres] at hr
        cases hr
    | some rid =>
      obtain ⟨hne, q, hq, hqid, hqg⟩ := hInv.2.2 p hp rid hrec
      have hfound : (findParticipantById db rid).isSome := by
        unfold findParticipantById
        rw [List.find?_isSome]
        exact ⟨q, hq, by simp [hqid]⟩
      obtain ⟨q', hq'⟩ := Option.isSome_iff_exists.mp hfound
      have hq'mem : q' ∈ db.participants := List.mem_of_find?_eq_some hq'
      have hq'id : q'.id = rid := by
        have := List.find?_some hq'
        simpa using this
      have hres : get_recipient db gid pid =
          Except.ok { id := q'.id, name := q'.name, wish := q'.wish } := by
        simp [get_recipient, hfind, resolveRecipient, hrec, hq']
      refine ⟨?_, ?_, ?_⟩
      · rw [hres]
        constructor
        · intro hcontra
          cases hcontra
        · rintro (hnone | ⟨p', hp', hrec'⟩)
          · cases hnone
          · obtain rfl : p = p' := by cases hp'; rfl
            rw [hrec] at hrec'
            cases hrec'
      · intro r hr
        rw [hres] at hr
        cases hr
        refine ⟨p, q', rfl, ?_, hq'mem, rfl⟩
        rw [hrec, hq'id]
      · intro hall
        rw [hall p hp] at hrec
        cases hrec

theorem C6_witness :
    ∃ p q, findParticipantIn db3after "g1" "p1" = some p ∧ p.recipientId = some q.id ∧
      q ∈ db3after.participants ∧
      ({ id := "p2", name := "B", wish := none } : ParticipantLite)
        = { id := q.id, name := q.name, wish := q.wish } :=
  (C6_get_recipient db3after "g1" "p1" (by decide)).2.1
    { id := "p2", name := "B", wish := none } (by rfl)

/-- C10: for a missing group id `update_group` answers `NotFound`; for an
existing group it overwrites exactly that group's name and description with
the request values (an omitted description arrives as `none` and overwrites
the stored one) and leaves everything else unchanged: the participant table is
untouched and every group keeps its id, with all other groups exactly
unchanged. -/
theorem C10_update_group_frame (db : Database) (gid nm : String) (d : Option String) :
    (findGroup db gid = none → update_group db gid nm d = Except.error ApiError.notFound) ∧
    (∀ db', update_group db gid nm d = Except.ok db' →
      db'.participants = db.participants ∧
      List.Forall₂ (fun g g' => g'.id = g.id ∧
          (g.id = gid → g'.name = nm ∧ g'.description = d) ∧
          (¬ g.id = gid → g' = g))
        db.groups db'.groups) := by
  constructor
  · intro hnone
    simp [update_group, hnone]
  · intro db' h
    unfold update_group at h
    split at h
    · cases h
    · cases h
      refine ⟨rfl, ?_⟩
      apply forall2_map_right
      intro g _
      by_cases hc : g.id = gid
      · refine ⟨by simp [hc], fun _ => ⟨by simp [hc], by simp [hc]⟩, fun hcontra => absurd hc hcontra⟩
      · exact ⟨by simp [hc], fun hcontra => absurd hcontra hc, fun _ => by simp [hc]⟩

theorem C10_witness :
    ({ groups := [{ id := "g1", name := "H", description := some "x" }],
       participants := db3.participants } : Database).participants = db3.participants ∧
    List.Forall₂ (fun g g' => g'.id = g.id ∧
        (g.id = "g1" → g'.name = "H" ∧ g'.description = some "x") ∧
        (¬ g.id = "g1" → g' = g))
      db3.groups
      ({ groups := [{ id := "g1", name := "H", description := some "x" }],
         participants := db3.participants } : Database).groups :=
  (C10_update_group_frame db3 "g1" "H" (some "x")).2
    { groups := [{ id := "g1", name := "H", description := some "x" }],
      participants := db3.participants } (by rfl)

/-- C4 counterexample: the claim says deleting a group deletes all of its
participants.  On the code, deleting `db3after`'s only group succeeds but all
3 participant rows survive, merely detached from the group, and they even keep
their recipient links. -/
theorem C4_counterexample :
    delete_group db3after "g1" = Except.ok db3detached ∧
    db3detached.participants.length = 3 ∧
    (∃ p ∈ db3detached.participants, p.id = "p1" ∧ p.recipientId = some "p2") := by
  refine ⟨by rfl, by rfl, ?_⟩
  decide

/-- C4 amended: deleting a missing group id answers `NotFound`.  Deleting an
existing group removes the group row and detaches its participants — their
group link is cleared but the rows and their recipient links persist — so a
subsequent get-group answers `NotFound` and every participant lookup scoped to
the deleted group (get-recipient, delete-participant) answers `NotFound`. -/
theorem C4_amended_delete_group (db : Database) (gid : String) :
    (findGroup db gid = none → delete_group db gid = Except.error ApiError.notFound) ∧
    (∀ db', delete_group db gid = Except.ok db' →
      findGroup db' gid = none ∧
      get_group db' gid = Except.error ApiError.notFound ∧
      (∀ pid, get_recipient db' gid pid = Except.error ApiError.notFound) ∧
      (∀ pid, delete_participant db' gid pid = Except.error ApiError.notFound) ∧
      db'.participants.length = db.participants.length ∧
      (∀ p ∈ db.participants, p.groupId = some gid →
        ∃ q ∈ db'.participants, q.id = p.id ∧ q.groupId = none ∧
          q.recipientId = p.recipientId)) := by
  constructor
  · intro hnone
    simp [delete_group, hnone]
  · intro db' h
    unfold delete_group at h
    split at h
    · cases h
    · cases h
      have hfg :
          findGroup
            { groups := db.groups.filter (fun g => ¬ g.id = gid),
              participants := db.participants.map (fun p =>
                if p.groupId = some gid then { p with groupId := none } else p) }
            gid = none := by
        unfold findGroup
        rw [List.find?_eq_none]
        intro g hgmem
        have := List.of_mem_filter hgmem
        simpa using this
      have hfp : ∀ pid,
          findParticipantIn
            { groups := db.groups.filter (fun g => ¬ g.id = gid),
              participants := db.participants.map (fun p =>
                if p.groupId = some gid then { p with groupId := none } else p) }
            gid pid = none := by
        intro pid
        unfold findParticipantIn
        rw [List.find?_eq_none]
        intro q hqmem
        obtain ⟨q0, hq0, rfl⟩ := List.mem_map.mp hqmem
        by_cases hc : q0.groupId = some gid
        · simp [hc]
        · simp [hc]
      refine ⟨hfg, ?_, ?_, ?_, ?_, ?_⟩
      · unfold get_group
        rw [hfg]
      · intro pid
        unfold get_recipient
        rw [hfp pid]
      · intro pid
        unfold delete_participant
        rw [hfp pid]
      · simp
      · intro p hp hpg
        refine ⟨{ p with groupId := none }, ?_, rfl, rfl, rfl⟩
        have : (if p.groupId = some gid then { p with groupId := none } else p)
            = { p with groupId := none } := by
          simp [hpg]
        rw [← this]
        exact List.mem_map_of_mem _ hp

theorem C4_witness :
    findGroup db3detached "g1" = none ∧
    get_group db3detached "g1" = Except.error ApiError.notFound ∧
    (∀ pid, get_recipient db3detached "g1" pid = Except.error ApiError.notFound) ∧
    (∀ pid, delete_participant db3detached "g1" pid = Except.error ApiError.notFound) ∧
    db3detached.participants.length = db3after.participants.length ∧
    (∀ p ∈ db3after.participants, p.groupId = some "g1" →
      ∃ q ∈ db3detached.participants, q.id = p.id ∧ q.groupId = none ∧
        q.recipientId = p.recipientId) :=
  (C4_amended_delete_group db3after "g1").2 db3detached (by rfl)

/-- C8 counterexample: the claim says deleting a participant that is someone's
recipient clears that recipient link.  On the code, after a toss on `db3after`
every participant is referenced, and deleting `p2` (referenced by `p1`) does
not succeed at all: the unprotected DELETE violates the `recipient_id`
foreign-key constraint and surfaces as an integrity error, clearing nothing. -/
theorem C8_counterexample :
    delete_participant db3after "g1" "p2" = Except.error ApiError.integrityError ∧
    (∃ p ∈ db3after.participants, ¬ p.id = "p2" ∧ p.recipientId = some "p2") := by
  constructor
  · rfl
  · decide

/-- C8 amended: `delete_participant` on a participant that exists in the group
but is still referenced by another row's recipient link fails with an
integrity error (mutating nothing); when it succeeds, the participant was
unreferenced, so afterwards no row at all carries a recipient link to it, the
deleted id is gone from the table, and the group table is untouched. -/
theorem C8_amended_delete_participant (db : Database) (gid pid : String) :
    ((∃ p, findParticipantIn db gid pid = some p) →
      (∃ q ∈ db.participants, ¬ q.id = pid ∧ q.recipientId = some pid) →
      delete_participant db gid pid = Except.error ApiError.integrityError) ∧
    (∀ db', delete_participant db gid pid = Except.ok db' →
      (∀ q ∈ db'.participants, ¬ q.recipientId = some pid) ∧
      (∀ q ∈ db'.participants, ¬ q.id = pid) ∧
      db'.groups = db.groups) := by
  constructor
  · rintro ⟨p, hp⟩ ⟨q, hq, hqid, hqr⟩
    have hany : (db.participants.any fun q => ¬ q.id = pid ∧ q.recipientId = some pid)
        = true := by
      rw [List.any_eq_true]
      exact ⟨q, hq, by simp [hqid, hqr]⟩
    unfold delete_participant
    rw [hp, if_pos hany]
  · intro db' h
    unfold delete_participant at h
    split at h
    · cases h
    · split at h
      · cases h
      · next hnoref =>
        cases h
        refine ⟨?_, ?_, rfl⟩
        · intro q hq hqr
          have hqmem := List.mem_of_mem_filter hq
          have hqid : ¬ q.id = pid := by
            have := List.of_mem_filter hq
            simpa using this
          apply hnoref
          rw [List.any_eq_true]
          exact ⟨q, hqmem, by simp [hqid, hqr]⟩
        · intro q hq
          have := List.of_mem_filter hq
          simpa using this

theorem C8_witness :
    (∀ q ∈ db3minus.participants, ¬ q.recipientId = some "p2") ∧
    (∀ q ∈ db3minus.participants, ¬ q.id = "p2") ∧
    db3minus.groups = db3.groups :=
  (C8_amended_delete_participant db3 "g1" "p2").2 db3minus (by rfl)
